import Mathlib

/-!
Shallow embedding of the `hbgam` preprocessing pipeline
(src/notebooks/preprocessing.ipynb) and of the `eensight` preprocessing
functions the notebook calls.

Conventions of the embedding:
* a time series on the canonical hourly grid is a `List (Option ℚ)`;
  position `i` is the i-th hour of the grid, `none` is the missing marker
  (the notebook's `np.nan`);
* a raw, possibly irregular series is a `List (Int × ℚ)` of
  (timestamp-in-hours, value) pairs, and a validated indexed series is a
  `List (Int × Option ℚ)`;
* boolean outlier masks are `List Bool` aligned with the series.

The bodies of `validate_data`, `global_filter`, `global_outlier_detect`,
`local_outlier_detect`, `linear_impute`, `iterative_impute` and
`check_column_values_not_null` live in the external `eensight` package and
are not part of the repository sources; where a claim depends on them they
are modelled from the specification text (their doc comments say so).
Everything the notebook itself does (outlier consensus and masking, the
imputation flag bookkeeping, the temperature flow, the per-month
sufficiency counting, the merge) is embedded directly from the notebook
cells.
-/

namespace Hbgam

/-! ### Generic helpers -/

/-- Minimum of `a :: l` for a linear order, by structural recursion. -/
def listMin {α : Type} [LinearOrder α] : α → List α → α
  | a, [] => a
  | a, b :: l => min a (listMin b l)

/-- Maximum of `a :: l` for a linear order, by structural recursion. -/
def listMax {α : Type} [LinearOrder α] : α → List α → α
  | a, [] => a
  | a, b :: l => max a (listMax b l)

/-- Insert into a sorted list of rationals. -/
def insertSorted (x : ℚ) : List ℚ → List ℚ
  | [] => [x]
  | y :: ys => if x ≤ y then x :: y :: ys else y :: insertSorted x ys

/-- Insertion sort on rationals. -/
def sortQ : List ℚ → List ℚ
  | [] => []
  | x :: xs => insertSorted x (sortQ xs)

/-- Median of a list of rationals: middle element of the sorted list for odd
length, average of the two middle elements for even length, `0` for the
empty list (the callers never take the median of an empty list). -/
def medianQ (xs : List ℚ) : ℚ :=
  let s := sortQ xs
  let n := s.length
  if n = 0 then 0
  else if n % 2 = 1 then s.getD (n / 2) 0
  else (s.getD (n / 2 - 1) 0 + s.getD (n / 2) 0) / 2

/-- Median absolute deviation of a list of rationals. -/
def madQ (xs : List ℚ) : ℚ :=
  medianQ (xs.map (fun x => |x - medianQ xs|))

/-- The hourly index grid `[lo, lo+1, …, lo+n-1]` (timestamps in hours). -/
def hourlyGrid (lo : Int) (n : Nat) : List Int :=
  (List.range n).map (fun (i : Nat) => lo + (i : Int))

/-! ### Stage 1 — timestamp validator & deduplicator -/

/-- The values of all raw entries sharing timestamp `t`. -/
def groupVals (input : List (Int × ℚ)) (t : Int) : List ℚ :=
  input.filterMap (fun p => if p.1 = t then some p.2 else none)

/-- Modelled from the spec: the duplicate-collapsing rule of `validate_data`
(§4.1) — the function itself lives in `eensight.preprocessing`, only its
call sites are in the notebook.  A group of values sharing one timestamp is
collapsed to its mean when `max − min ≤ τ`, made missing when the range
exceeds `τ`, and a timestamp with no entry is missing. -/
def dedupValue (τ : ℚ) : List ℚ → Option ℚ
  | [] => none
  | v :: vs =>
      if listMax v vs - listMin v vs ≤ τ then some ((v :: vs).sum / (v :: vs).length)
      else none

/-- Modelled from the spec: `validate_data` (§4.1) — the function lives in
`eensight.preprocessing`.  It builds the regular hourly grid from the
earliest to the latest timestamp seen and fills each slot by the
duplicate-collapsing rule; a slot with no source entry becomes missing. -/
def validate_data (τ : ℚ) (input : List (Int × ℚ)) : List (Int × Option ℚ) :=
  match input with
  | [] => []
  | (t0, _) :: _ =>
      let ts := input.map Prod.fst
      let lo := listMin t0 ts
      let hi := listMax t0 ts
      (hourlyGrid lo (hi - lo + 1).toNat).map
        (fun t => (t, dedupValue τ (groupVals input t)))

/-! ### Stage 2 — global filter (modelled from the spec) -/

/-- Count of consecutive slots equal to `some v` immediately below index `i`
(positions `i-1, i-2, …` until the first mismatch). -/
def countEqDown (vals : List (Option ℚ)) (v : ℚ) : Nat → Nat
  | 0 => 0
  | j + 1 => if vals.getD j none = some v then countEqDown vals v j + 1 else 0

/-- Fuel-bounded count of consecutive slots equal to `some v` at indices
`i, i+1, …` until the first mismatch. -/
def countEqUpFuel (vals : List (Option ℚ)) (v : ℚ) : Nat → Nat → Nat
  | 0, _ => 0
  | fuel + 1, i => if vals.getD i none = some v then countEqUpFuel vals v fuel (i + 1) + 1 else 0

/-- Count of consecutive slots equal to `some v` at indices `i, i+1, …`. -/
def countEqUp (vals : List (Option ℚ)) (v : ℚ) (i : Nat) : Nat :=
  countEqUpFuel vals v vals.length i

/-- Length of the maximal run of identical non-missing values containing
index `i` (0 when slot `i` is missing). -/
def runLen (vals : List (Option ℚ)) (i : Nat) : Nat :=
  match vals.getD i none with
  | none => 0
  | some v => countEqDown vals v i + 1 + countEqUp vals v (i + 1)

/-- Modelled from the spec: the flat-run rule of `global_filter` (§4.2) —
slot `i` sits inside a run of at least `w` consecutive identical
non-missing values. -/
def flatRun (w : Nat) (vals : List (Option ℚ)) (i : Nat) : Bool :=
  decide (w ≤ runLen vals i)

/-- Modelled from the spec: the zero/negative rule of `global_filter`
(§4.2). -/
def zeroNegRule (allow_zero allow_negative : Bool) (v : ℚ) : Bool :=
  (!allow_zero && decide (v = 0)) || (!allow_negative && decide (v < 0))

/-- Modelled from the spec: the magnitude rule of `global_filter` (§4.2) —
the value exceeds 10× the overall median of the non-missing values. -/
def magnitudeRule (vals : List (Option ℚ)) (v : ℚ) : Bool :=
  decide (10 * medianQ (vals.filterMap id) < v)

/-- The combined removal predicate of the three `global_filter` rules at
slot `i`. -/
def globalFilterHit (w : Nat) (allow_zero allow_negative : Bool)
    (vals : List (Option ℚ)) (i : Nat) (v : ℚ) : Bool :=
  zeroNegRule allow_zero allow_negative v || magnitudeRule vals v || flatRun w vals i

/-- Mask slot `i` of `vals` when `p i v` holds of its present value. -/
def maskBy (p : Nat → ℚ → Bool) (vals : List (Option ℚ)) : List (Option ℚ) :=
  (List.range vals.length).map
    (fun i => match vals.getD i none with
      | none => none
      | some v => if p i v then none else some v)

/-- Modelled from the spec: `global_filter` (§4.2) — the function lives in
`eensight.preprocessing`.  Marks missing: values failing the
zero/negative rule, values exceeding 10× the overall median of non-missing
values, and values inside a run of at least `w` consecutive identical
non-missing values; each rule is evaluated against the input series and
masking is pointwise. -/
def global_filter (w : Nat) (allow_zero allow_negative : Bool)
    (vals : List (Option ℚ)) : List (Option ℚ) :=
  maskBy (globalFilterHit w allow_zero allow_negative vals) vals

/-! ### Stages 4–6 — outlier detection, consensus and masking -/

/-- Pointwise conjunction of the global and the local outlier masks;
embeds the notebook cell `outliers = np.logical_and(outliers_global, outliers_local)`. -/
def combineOutliers (g l : List Bool) : List Bool :=
  List.zipWith (fun a b => a && b) g l

/-- Overwrite with the missing marker every slot whose mask entry is `true`;
embeds `consumption['consumption'].mask(outliers, other=np.nan)`. -/
def maskSeries (xs : List (Option ℚ)) (m : List Bool) : List (Option ℚ) :=
  List.zipWith (fun x b => if b then none else x) xs m

/-- The consensus-and-masking step the notebook applies to consumption:
combine the two detector masks by logical AND and mask the series with the
combined mask. -/
def consensusMask (xs : List (Option ℚ)) (g l : List Bool) : List (Option ℚ) :=
  maskSeries xs (combineOutliers g l)

/-- The outlier stage of the notebook's temperature flow: the notebook
computes `outliers_global` and `outliers_local` for temperature but never
combines them and never applies `.mask` to the temperature series, so the
series continues unchanged whatever the detector masks are. -/
def temperatureOutlierStage (xs : List (Option ℚ)) (g l : List Bool) :
    List (Option ℚ) :=
  let _ := g
  let _ := l
  xs

/-- Modelled from the spec: one day's flags of `local_outlier_detect`
(§4.5) — the function lives in `eensight.preprocessing`.  A day is a list
of hourly residual slots; its expected hourly count is its length (the
validated grid is gap-free).  When the fraction of present residuals is at
least `min_samples`, a present residual is flagged iff it falls outside
`[median − c·MAD, median + c·MAD]` of the day's present residuals;
otherwise no slot of the day is flagged. -/
def dayFlags (c min_samples : ℚ) (day : List (Option ℚ)) : List Bool :=
  let present := day.filterMap id
  if min_samples * day.length ≤ (present.length : ℚ) then
    let med := medianQ present
    let mad := madQ present
    day.map (fun o =>
      match o with
      | none => false
      | some v => decide (v < med - c * mad ∨ med + c * mad < v))
  else day.map (fun _ => false)

/-- Modelled from the spec: `local_outlier_detect` (§4.5) applied to a
residual series grouped into calendar days. -/
def local_outlier_detect (c min_samples : ℚ) (days : List (List (Option ℚ))) :
    List (List Bool) :=
  days.map (dayFlags c min_samples)

/-! ### Stage 7 — imputation -/

/-- Walk down from index `j` with distance budget `b`, returning the first
present slot found (index and value). -/
def seekBack (vals : List (Option ℚ)) : Nat → Nat → Option (Nat × ℚ)
  | _, 0 => none
  | 0, _ + 1 => (vals.getD 0 none).map (fun v => (0, v))
  | j + 1, b + 1 =>
      match vals.getD (j + 1) none with
      | some v => some (j + 1, v)
      | none => seekBack vals j b

/-- Walk up from index `j` with distance budget `b`, returning the first
present slot found (index and value). -/
def seekFwd (vals : List (Option ℚ)) : Nat → Nat → Option (Nat × ℚ)
  | _, 0 => none
  | j, b + 1 =>
      if j < vals.length then
        match vals.getD j none with
        | some v => some (j, v)
        | none => seekFwd vals (j + 1) b
      else none

/-- Nearest non-missing slot strictly before index `i`, at most `w` hours
away. -/
def nearestBefore (vals : List (Option ℚ)) (i w : Nat) : Option (Nat × ℚ) :=
  match i with
  | 0 => none
  | i' + 1 => seekBack vals i' w

/-- Nearest non-missing slot strictly after index `i`, at most `w` hours
away. -/
def nearestAfter (vals : List (Option ℚ)) (i w : Nat) : Option (Nat × ℚ) :=
  seekFwd vals (i + 1) w

/-- Linear interpolation between `(j, vb)` and `(k, va)` evaluated at `i`. -/
def interpAt (j k i : Nat) (vb va : ℚ) : ℚ :=
  vb + (va - vb) * (((i - j : Nat) : ℚ) / ((k - j : Nat) : ℚ))

/-- Modelled from the spec: `linear_impute` (§4.7) — the function lives in
`eensight.preprocessing`.  On the hourly grid, each missing value that has
a non-missing neighbour within `w` hours on both sides is filled with the
linear interpolation of the nearest such neighbours; other missing values
stay missing; present values are never altered. -/
def linear_impute (w : Nat) (vals : List (Option ℚ)) : List (Option ℚ) :=
  (List.range vals.length).map
    (fun i => match vals.getD i none with
      | some v => some v
      | none =>
          match nearestBefore vals i w, nearestAfter vals i w with
          | some (j, vb), some (k, va) => some (interpAt j k i vb va)
          | _, _ => none)

/-- The notebook's whole temperature flow between the global filter and the
merge: detector runs (whose masks it ignores) followed by
`linear_impute(…, window=6)`. -/
def temperatureProcess (filtered : List (Option ℚ)) (g l : List Bool) :
    List (Option ℚ) :=
  linear_impute 6 (temperatureOutlierStage filtered g l)

/-- The consumption-imputation flag column the notebook builds:
`consumption_imputed` starts at `False` and is set to `True` exactly where
the consumption value is missing just before imputation. -/
def consumptionImputedFlags (cons : List (Option ℚ)) : List Bool :=
  cons.map Option.isNone

/-- The notebook's consumption-imputation write-back:
`merged['consumption'].mask(merged['consumption_imputed'], other=imputed)` —
rows flagged imputed take the value from the `iterative_impute` output,
all other rows keep their original value. -/
def applyImputation (cons : List (Option ℚ)) (imputed : List ℚ) : List (Option ℚ) :=
  List.zipWith (fun c i => if Option.isNone c then some i else c) cons imputed

/-- The training-eligible series: rows with `consumption_imputed = true`
are dropped, keeping (index, value) of the remaining rows. -/
def trainingRows (cons : List (Option ℚ)) (imputed : List ℚ) : List (Option ℚ) :=
  ((applyImputation cons imputed).zip (consumptionImputedFlags cons)).filterMap
    (fun p => if p.2 then none else some p.1)

/-! ### Stage 8 — sufficiency checking -/

/-- One merged row: consumption and temperature, each possibly missing. -/
abbrev MergedRow : Type := Option ℚ × Option ℚ

/-- The notebook's `missing` frame: the consumption column masked wherever
the temperature is missing
(`merged_data[['consumption']].mask(merged_data['temperature'].isna(), np.nan)`). -/
def maskedConsumption (month : List MergedRow) : List (Option ℚ) :=
  month.map (fun r => if r.2.isNone then none else r.1)

/-- Whether a merged row has a present value for both signals. -/
def bothPresent (r : MergedRow) : Bool :=
  r.1.isSome && r.2.isSome

/-- The fraction of a month's hours whose masked-consumption entry is
present — this is what `check_column_values_not_null` measures on the
notebook's `missing` frame (the body of that check lives in `eensight`). -/
def presentFraction (month : List MergedRow) : ℚ :=
  (((maskedConsumption month).countP Option.isSome : ℚ)) / (month.length : ℚ)

/-- Modelled from the spec: the per-month pass verdict of
`check_column_values_not_null` with `mostly = 0.9` (§4.8): a month passes
iff its present fraction is at least 9/10. -/
def monthPasses (month : List MergedRow) : Bool :=
  decide ((9 : ℚ) / 10 ≤ presentFraction month)

/-- A sufficiency report entry: (year, month-of-year, passes). -/
abbrev ReportEntry : Type := Int × Nat × Bool

/-- Modelled from the spec: the minimum-year requirement of the sufficiency
gate (§4.8) — some calendar year strictly before the intervention year has
all twelve months present in the report and passing. -/
def fullYearBefore (rep : List ReportEntry) (interventionYear : Int) : Bool :=
  (rep.map (fun e => e.1)).any (fun y =>
    decide (y < interventionYear) &&
      (List.range 12).all (fun m => rep.any (fun e => decide (e.1 = y) && decide (e.2.1 = m + 1) && e.2.2)))

/-- Modelled from the spec: the sufficiency gate (§4.8) — signals
`InsufficientDataError` instead of producing the merged artifact when no
full calendar year of passing months precedes the intervention date, and
lets the artifact through otherwise.  `α` stands for the merged baseline
artifact. -/
def sufficiencyGate {α : Type} (rep : List ReportEntry) (interventionYear : Int)
    (artifact : α) : Except String α :=
  if fullYearBefore rep interventionYear then Except.ok artifact
  else Except.error "InsufficientDataError"

/-! ### The merge -/

/-- The nearest entry of `temp` to timestamp `t` within a one-hour
tolerance (ties resolved to the entry occurring first in the list);
embeds the match rule of
`pd.merge_asof(…, direction='nearest', tolerance=pd.Timedelta('1H'))`. -/
def nearestObs (t : Int) : List (Int × Option ℚ) → Option (Int × Option ℚ)
  | [] => none
  | (s, v) :: rest =>
      let r := nearestObs t rest
      if |s - t| ≤ 1 then
        match r with
        | none => some (s, v)
        | some (s0, _) => if |s - t| ≤ |s0 - t| then some (s, v) else r
      else r

/-- The notebook's merge:
`pd.merge_asof(consumption, temperature, left_index=True, right_index=True,
direction='nearest', tolerance=pd.Timedelta('1H'))` — one output row per
consumption row, carrying the temperature value of the nearest temperature
timestamp within one hour (missing when there is none). -/
def mergeAsofNearest (cons temp : List (Int × Option ℚ)) :
    List (Int × Option ℚ × Option ℚ) :=
  cons.map (fun p => (p.1, p.2, (nearestObs p.1 temp).bind (fun q => q.2)))

/-! ### Helper lemmas -/

theorem getD_map {α β : Type} (f : α → β) (l : List α) (t : ℕ) (h : t < l.length)
    (d1 : α) (d2 : β) : (l.map f).getD t d2 = f (l.getD t d1) := by
  rw [List.getD_eq_getElem?_getD, List.getElem?_map, List.getElem?_eq_getElem h]
  simp [List.getD_eq_getElem?_getD, List.getElem?_eq_getElem, h]

theorem getD_zipWith {α β γ : Type} (f : α → β → γ) (l1 : List α) (l2 : List β)
    (t : ℕ) (h1 : t < l1.length) (h2 : t < l2.length) (d1 : α) (d2 : β) (d3 : γ) :
    (List.zipWith f l1 l2).getD t d3 = f (l1.getD t d1) (l2.getD t d2) := by
  rw [List.getD_eq_getElem?_getD, List.getElem?_zipWith,
    List.getElem?_eq_getElem h1, List.getElem?_eq_getElem h2]
  simp [List.getD_eq_getElem?_getD, List.getElem?_eq_getElem, h1, h2]

theorem getD_range_map {α : Type} (f : ℕ → α) (n t : ℕ) (h : t < n) (d : α) :
    (((List.range n).map f).getD t d) = f t := by
  rw [getD_map f _ t (by simpa using h) 0 d]
  congr 1
  rw [List.getD_eq_getElem?_getD, List.getElem?_range h]
  rfl

theorem listMin_le {α : Type} [LinearOrder α] (a : α) (l : List α) :
    ∀ x ∈ a :: l, listMin a l ≤ x := by
  induction l generalizing a with
  | nil =>
      intro x hx
      simp only [List.mem_singleton] at hx
      subst hx
      simp [listMin]
  | cons b l ih =>
      intro x hx
      rcases List.mem_cons.mp hx with h | h
      · subst h; simp [listMin]
      · exact le_trans (by simp [listMin] : listMin a (b :: l) ≤ listMin b l) (ih b x h)

theorem listMin_mem {α : Type} [LinearOrder α] (a : α) (l : List α) :
    listMin a l ∈ a :: l := by
  induction l generalizing a with
  | nil => simp [listMin]
  | cons b l ih =>
      simp only [listMin]
      rcases min_cases a (listMin b l) with ⟨h, _⟩ | ⟨h, _⟩
      · rw [h]; exact List.mem_cons_self _ _
      · rw [h]; exact List.mem_cons_of_mem _ (ih b)

theorem le_listMax {α : Type} [LinearOrder α] (a : α) (l : List α) :
    ∀ x ∈ a :: l, x ≤ listMax a l := by
  induction l generalizing a with
  | nil =>
      intro x hx
      simp only [List.mem_singleton] at hx
      subst hx
      simp [listMax]
  | cons b l ih =>
      intro x hx
      rcases List.mem_cons.mp hx with h | h
      · subst h; simp [listMax]
      · exact le_trans (ih b x h) (by simp [listMax] : listMax b l ≤ listMax a (b :: l))

theorem listMax_mem {α : Type} [LinearOrder α] (a : α) (l : List α) :
    listMax a l ∈ a :: l := by
  induction l generalizing a with
  | nil => simp [listMax]
  | cons b l ih =>
      simp only [listMax]
      rcases max_cases a (listMax b l) with ⟨h, _⟩ | ⟨h, _⟩
      · rw [h]; exact List.mem_cons_self _ _
      · rw [h]; exact List.mem_cons_of_mem _ (ih b)

theorem hourlyGrid_succ (lo : Int) (n : ℕ) :
    hourlyGrid lo (n + 1) = lo :: hourlyGrid (lo + 1) n := by
  unfold hourlyGrid
  rw [List.range_succ_eq_map]
  simp only [List.map_cons, List.map_map, Nat.cast_zero, add_zero]
  refine congrArg (List.cons _) ?_
  refine List.map_congr_left ?_
  intro i _
  simp only [Function.comp_apply]
  push_cast
  ring

theorem hourlyGrid_concat (lo : Int) (n : ℕ) :
    hourlyGrid lo (n + 1) = hourlyGrid lo n ++ [lo + n] := by
  unfold hourlyGrid
  rw [List.range_succ]
  simp

theorem hourlyGrid_head (lo : Int) (n : ℕ) :
    (hourlyGrid lo (n + 1)).head? = some lo := by
  rw [hourlyGrid_succ]
  rfl

theorem hourlyGrid_getLast (lo : Int) (n : ℕ) :
    (hourlyGrid lo (n + 1)).getLast? = some (lo + n) := by
  rw [hourlyGrid_concat]
  exact List.getLast?_concat _

theorem hourlyGrid_chain' (lo : Int) (n : ℕ) :
    List.Chain' (fun a b => b = a + 1) (hourlyGrid lo n) := by
  induction n generalizing lo with
  | zero => simp [hourlyGrid]
  | succ n ih =>
      rw [hourlyGrid_succ, List.chain'_cons']
      refine ⟨?_, ih (lo + 1)⟩
      intro y hy
      cases n with
      | zero => simp [hourlyGrid] at hy
      | succ m =>
          rw [hourlyGrid_head] at hy
          simp only [Option.mem_def, Option.some.injEq] at hy
          omega

theorem hourlyGrid_mem_ge (lo : Int) (n : ℕ) :
    ∀ x ∈ hourlyGrid lo n, lo ≤ x := by
  intro x hx
  unfold hourlyGrid at hx
  simp only [List.mem_map, List.mem_range] at hx
  obtain ⟨i, _, rfl⟩ := hx
  omega

theorem hourlyGrid_pairwise (lo : Int) (n : ℕ) :
    List.Pairwise (· < ·) (hourlyGrid lo n) := by
  induction n generalizing lo with
  | zero => simp [hourlyGrid]
  | succ n ih =>
      rw [hourlyGrid_succ]
      refine List.pairwise_cons.mpr ⟨?_, ih (lo + 1)⟩
      intro x hx
      have := hourlyGrid_mem_ge (lo + 1) n x hx
      omega

/-! ### Claims -/

/-- C1: the consensus-and-masking step overwrites the value at `t` with the
missing marker iff both the global and the local detector flag `t` (the
combined mask is the pointwise AND of the two masks); at every timestamp
flagged by at most one detector the value is left unchanged. -/
theorem claim_C1 (xs : List (Option ℚ)) (g l : List Bool) (t : ℕ)
    (hx : t < xs.length) (hg : t < g.length) (hl : t < l.length) :
    (consensusMask xs g l).getD t none =
      (if g.getD t false = true ∧ l.getD t false = true then none
       else xs.getD t none) := by
  unfold consensusMask maskSeries combineOutliers
  have hc : t < (List.zipWith (fun a b => a && b) g l).length := by
    rw [List.length_zipWith]; exact lt_min hg hl
  rw [getD_zipWith _ xs _ t hx hc none false none,
    getD_zipWith _ g l t hg hl false false false]
  rcases hgb : g.getD t false <;> rcases hlb : l.getD t false <;> simp

theorem claim_C1_witness :
    (consensusMask [some 1, some 2] [true, true] [true, false]).getD 0 none = none ∧
    (consensusMask [some 1, some 2] [true, true] [true, false]).getD 1 none = some 2 := by
  constructor
  · rw [claim_C1 [some 1, some 2] [true, true] [true, false] 0
      (by decide) (by decide) (by decide)]
    decide
  · rw [claim_C1 [some 1, some 2] [true, true] [true, false] 1
      (by decide) (by decide) (by decide)]
    decide

/-- C2: the `consumption_imputed` flag is true for exactly the rows whose
consumption was missing immediately before imputation; rows not flagged
keep their original value, and the training-eligible series (rows with the
flag excluded) is exactly the list of originally present consumption
values — no imputed value leaks into it. -/
theorem claim_C2 (cons : List (Option ℚ)) (imputed : List ℚ) (t : ℕ)
    (ht : t < cons.length) (hlen : cons.length ≤ imputed.length) :
    ((consumptionImputedFlags cons).getD t false = true ↔ cons.getD t none = none) ∧
    ((consumptionImputedFlags cons).getD t false = false →
      (applyImputation cons imputed).getD t none = cons.getD t none) ∧
    trainingRows cons imputed = cons.filter (fun c => c.isSome) := by
  refine ⟨?_, ?_, ?_⟩
  · unfold consumptionImputedFlags
    rw [getD_map Option.isNone cons t ht none false]
    exact Option.isNone_iff_eq_none
  · intro hflag
    unfold consumptionImputedFlags at hflag
    rw [getD_map Option.isNone cons t ht none false] at hflag
    unfold applyImputation
    rw [getD_zipWith _ cons imputed t ht (lt_of_lt_of_le ht hlen) none 0 none]
    simp only [List.getD_eq_getElem?_getD] at hflag ⊢
    rcases h : ((cons[t]?).getD none) with _ | v
    · rw [h] at hflag; simp at hflag
    · simp
  · clear ht
    induction cons generalizing imputed with
    | nil => simp [trainingRows, applyImputation, consumptionImputedFlags]
    | cons c cs ih =>
        cases imputed with
        | nil => simp at hlen
        | cons i is =>
            have hlen' : cs.length ≤ is.length := by
              simpa using hlen
            cases c with
            | none =>
                simp only [trainingRows, applyImputation, consumptionImputedFlags,
                  List.map_cons, List.zipWith_cons_cons, List.zip_cons_cons,
                  List.filterMap_cons, List.filter_cons] at *
                simpa using ih is hlen'
            | some x =>
                simp only [trainingRows, applyImputation, consumptionImputedFlags,
                  List.map_cons, List.zipWith_cons_cons, List.zip_cons_cons,
                  List.filterMap_cons, List.filter_cons] at *
                simpa using ih is hlen'

theorem claim_C2_witness :
    (((consumptionImputedFlags [some 1, none, some 3]).getD 1 false = true ↔
        ([some 1, none, some 3] : List (Option ℚ)).getD 1 none = none) ∧
      ((consumptionImputedFlags [some 1, none, some 3]).getD 1 false = false →
        (applyImputation [some 1, none, some 3] [9, 8, 7]).getD 1 none =
          ([some 1, none, some 3] : List (Option ℚ)).getD 1 none) ∧
      trainingRows [some 1, none, some 3] [9, 8, 7] =
        ([some 1, none, some 3] : List (Option ℚ)).filter (fun c => c.isSome)) :=
  claim_C2 [some 1, none, some 3] [9, 8, 7] 1 (by decide) (by decide)

/-- C3 (amended): in the notebook's temperature flow the detector masks are
never combined and never applied — the outlier stage returns the filtered
temperature series unchanged, and the series handed to `linear_impute` (and
on to the merge) does not depend on the detector output. -/
theorem claim_C3 (filtered : List (Option ℚ)) (g l : List Bool) :
    temperatureProcess filtered g l = linear_impute 6 filtered ∧
    temperatureOutlierStage filtered g l = filtered :=
  ⟨rfl, rfl⟩

/-- C3 counterexample: a temperature observation flagged by both detectors
is NOT masked to missing by the notebook's temperature flow, unlike what the
consensus-masking step would do. -/
theorem claim_C3_counterexample :
    temperatureProcess [some 5] [true] [true] = [some 5] ∧
    consensusMask [some 5] [true] [true] = [none] := by
  constructor
  · rfl
  · rfl

/-- C4: for every raw input with at least two distinct timestamps, the
validator's output is indexed by a strictly monotonic, duplicate-free
hourly grid spanning from the earliest to the latest input timestamp; a
group of entries sharing a timestamp is collapsed to its mean when
`max − min ≤ τ` and made missing when the range exceeds `τ`; every grid
slot with no source entry holds an explicit missing value. -/
theorem claim_C4 (τ : ℚ) (input : List (Int × ℚ))
    (hd : ∃ p ∈ input, ∃ q ∈ input, p.1 ≠ q.1) :
    ∃ lo hi : Int,
      lo ∈ input.map Prod.fst ∧ hi ∈ input.map Prod.fst ∧
      (∀ t ∈ input.map Prod.fst, lo ≤ t ∧ t ≤ hi) ∧
      (validate_data τ input).map Prod.fst = hourlyGrid lo (hi - lo + 1).toNat ∧
      List.Chain' (fun a b => b = a + 1) ((validate_data τ input).map Prod.fst) ∧
      List.Pairwise (· < ·) ((validate_data τ input).map Prod.fst) ∧
      ((validate_data τ input).map Prod.fst).head? = some lo ∧
      ((validate_data τ input).map Prod.fst).getLast? = some hi ∧
      (∀ p ∈ validate_data τ input,
        (groupVals input p.1 = [] → p.2 = none) ∧
        (∀ v vs, groupVals input p.1 = v :: vs →
          (listMax v vs - listMin v vs ≤ τ →
            p.2 = some ((v :: vs).sum / ((v :: vs).length : ℚ))) ∧
          (τ < listMax v vs - listMin v vs → p.2 = none))) := by
  match input with
  | [] => simp at hd
  | (t0, v0) :: rest =>
      refine ⟨listMin t0 (((t0, v0) :: rest).map Prod.fst),
        listMax t0 (((t0, v0) :: rest).map Prod.fst), ?_, ?_, ?_, ?_, ?_, ?_, ?_, ?_, ?_⟩
      case _ =>
        have h := listMin_mem t0 (((t0, v0) :: rest).map Prod.fst)
        rcases List.mem_cons.mp h with h | h
        · rw [h]; exact List.mem_cons_self _ _
        · exact h
      case _ =>
        have h := listMax_mem t0 (((t0, v0) :: rest).map Prod.fst)
        rcases List.mem_cons.mp h with h | h
        · rw [h]; exact List.mem_cons_self _ _
        · exact h
      case _ =>
        intro t ht
        exact ⟨listMin_le t0 _ t (List.mem_cons_of_mem _ ht),
          le_listMax t0 _ t (List.mem_cons_of_mem _ ht)⟩
      case _ =>
        show (validate_data τ ((t0, v0) :: rest)).map Prod.fst = _
        unfold validate_data
        rw [List.map_map]
        exact List.map_id _
      case _ =>
        unfold validate_data
        rw [List.map_map]
        rw [show ((fun p => p.1) ∘ fun t =>
          ((t : Int), dedupValue τ (groupVals ((t0, v0) :: rest) t))) = id from rfl]
        rw [List.map_id]
        exact hourlyGrid_chain' _ _
      case _ =>
        unfold validate_data
        rw [List.map_map]
        rw [show ((fun p => p.1) ∘ fun t =>
          ((t : Int), dedupValue τ (groupVals ((t0, v0) :: rest) t))) = id from rfl]
        rw [List.map_id]
        exact hourlyGrid_pairwise _ _
      case _ =>
        unfold validate_data
        rw [List.map_map]
        rw [show ((fun p => p.1) ∘ fun t =>
          ((t : Int), dedupValue τ (groupVals ((t0, v0) :: rest) t))) = id from rfl]
        rw [List.map_id]
        have hle : listMin t0 (((t0, v0) :: rest).map Prod.fst) ≤
            listMax t0 (((t0, v0) :: rest).map Prod.fst) :=
          le_trans (listMin_le t0 _ t0 (List.mem_cons_self _ _))
            (le_listMax t0 _ t0 (List.mem_cons_self _ _))
        have hn : (listMax t0 (((t0, v0) :: rest).map Prod.fst) -
            listMin t0 (((t0, v0) :: rest).map Prod.fst) + 1).toNat =
            (listMax t0 (((t0, v0) :: rest).map Prod.fst) -
            listMin t0 (((t0, v0) :: rest).map Prod.fst)).toNat + 1 := by omega
        rw [hn]
        exact hourlyGrid_head _ _
      case _ =>
        unfold validate_data
        rw [List.map_map]
        rw [show ((fun p => p.1) ∘ fun t =>
          ((t : Int), dedupValue τ (groupVals ((t0, v0) :: rest) t))) = id from rfl]
        rw [List.map_id]
        have hle : listMin t0 (((t0, v0) :: rest).map Prod.fst) ≤
            listMax t0 (((t0, v0) :: rest).map Prod.fst) :=
          le_trans (listMin_le t0 _ t0 (List.mem_cons_self _ _))
            (le_listMax t0 _ t0 (List.mem_cons_self _ _))
        have hn : (listMax t0 (((t0, v0) :: rest).map Prod.fst) -
            listMin t0 (((t0, v0) :: rest).map Prod.fst) + 1).toNat =
            (listMax t0 (((t0, v0) :: rest).map Prod.fst) -
            listMin t0 (((t0, v0) :: rest).map Prod.fst)).toNat + 1 := by omega
        rw [hn, hourlyGrid_getLast]
        congr 1
        omega
      case _ =>
        intro p hp
        unfold validate_data at hp
        rw [List.mem_map] at hp
        obtain ⟨t, _, rfl⟩ := hp
        constructor
        · intro hg
          simp only [hg, dedupValue]
        · intro v vs hg
          constructor
          · intro hle
            simp only [hg, dedupValue, if_pos hle]
          · intro hgt
            simp only [hg, dedupValue, if_neg (not_le.mpr hgt)]

theorem claim_C4_witness :
    ∃ lo hi : Int,
      lo ∈ ([((3 : Int), (10 : ℚ)), (3, 21/2), (5, 7)]).map Prod.fst ∧
      hi ∈ ([((3 : Int), (10 : ℚ)), (3, 21/2), (5, 7)]).map Prod.fst ∧
      (∀ t ∈ ([((3 : Int), (10 : ℚ)), (3, 21/2), (5, 7)]).map Prod.fst, lo ≤ t ∧ t ≤ hi) ∧
      (validate_data 1 [((3 : Int), (10 : ℚ)), (3, 21/2), (5, 7)]).map Prod.fst =
        hourlyGrid lo (hi - lo + 1).toNat ∧
      List.Chain' (fun a b => b = a + 1)
        ((validate_data 1 [((3 : Int), (10 : ℚ)), (3, 21/2), (5, 7)]).map Prod.fst) ∧
      List.Pairwise (· < ·)
        ((validate_data 1 [((3 : Int), (10 : ℚ)), (3, 21/2), (5, 7)]).map Prod.fst) ∧
      ((validate_data 1 [((3 : Int), (10 : ℚ)), (3, 21/2), (5, 7)]).map Prod.fst).head? =
        some lo ∧
      ((validate_data 1 [((3 : Int), (10 : ℚ)), (3, 21/2), (5, 7)]).map Prod.fst).getLast? =
        some hi ∧
      (∀ p ∈ validate_data 1 [((3 : Int), (10 : ℚ)), (3, 21/2), (5, 7)],
        (groupVals [((3 : Int), (10 : ℚ)), (3, 21/2), (5, 7)] p.1 = [] → p.2 = none) ∧
        (∀ v vs, groupVals [((3 : Int), (10 : ℚ)), (3, 21/2), (5, 7)] p.1 = v :: vs →
          (listMax v vs - listMin v vs ≤ 1 →
            p.2 = some ((v :: vs).sum / ((v :: vs).length : ℚ))) ∧
          (1 < listMax v vs - listMin v vs → p.2 = none))) :=
  claim_C4 1 [((3 : Int), (10 : ℚ)), (3, 21/2), (5, 7)]
    ⟨(3, 10), by decide, (5, 7), by decide, by decide⟩

theorem countP_masked (month : List MergedRow) :
    (maskedConsumption month).countP Option.isSome = month.countP bothPresent := by
  unfold maskedConsumption
  rw [List.countP_map]
  congr 1
  funext r
  rcases r with ⟨c, t⟩
  cases t <;> cases c <;> rfl

theorem countP_le_of_pointwise (l l' : List MergedRow) (hlen : l'.length = l.length)
    (h : ∀ i, i < l.length →
      bothPresent (l'.getD i (none, none)) = true →
      bothPresent (l.getD i (none, none)) = true) :
    l'.countP bothPresent ≤ l.countP bothPresent := by
  induction l generalizing l' with
  | nil =>
      have : l' = [] := List.length_eq_zero.mp (by simpa using hlen)
      subst this
      exact le_refl 0
  | cons a as ih =>
      cases l' with
      | nil => simp at hlen
      | cons b bs =>
          have hlen' : bs.length = as.length := by simpa using hlen
          have h0 := h 0 (by simp)
          have htail : ∀ i, i < as.length →
              bothPresent (bs.getD i (none, none)) = true →
              bothPresent (as.getD i (none, none)) = true := by
            intro i hi
            have := h (i + 1) (by simpa using Nat.succ_lt_succ hi)
            simpa [List.getD_cons_succ] using this
          simp only [List.countP_cons]
          have hle := ih bs hlen' htail
          simp only [List.getD_cons_zero] at h0
          by_cases hb : bothPresent b = true
          · rw [if_pos hb, if_pos (h0 hb)]
            omega
          · rw [if_neg hb]
            have : (0 : ℕ) ≤ if bothPresent a = true then 1 else 0 := Nat.zero_le _
            omega

/-- C5: the sufficiency checker reports, per month, the fraction of the
month's hours having a present value for both consumption and temperature;
the month passes iff this fraction is at least 9/10; and making additional
values missing in a month never increases the reported fraction. -/
theorem claim_C5 (month month' : List MergedRow)
    (hlen : month'.length = month.length)
    (hdeg : ∀ i, i < month.length →
      bothPresent (month'.getD i (none, none)) = true →
      bothPresent (month.getD i (none, none)) = true) :
    presentFraction month = ((month.countP bothPresent : ℚ)) / (month.length : ℚ) ∧
    (monthPasses month = true ↔ (9 : ℚ) / 10 ≤ presentFraction month) ∧
    presentFraction month' ≤ presentFraction month := by
  refine ⟨?_, ?_, ?_⟩
  · unfold presentFraction
    rw [countP_masked]
  · unfold monthPasses
    exact decide_eq_true_iff
  · have hc := countP_le_of_pointwise month month' hlen hdeg
    unfold presentFraction
    rw [countP_masked, countP_masked, hlen]
    rcases Nat.eq_zero_or_pos month.length with h0 | hpos
    · rw [h0]
      simp
    · have hposQ : (0 : ℚ) < (month.length : ℚ) := by exact_mod_cast hpos
      exact (div_le_div_iff_of_pos_right hposQ).mpr (by exact_mod_cast hc)

theorem claim_C5_witness :
    (presentFraction (List.replicate 9 ((some 1, some 1) : MergedRow) ++ [(none, some 1)]) =
      (((List.replicate 9 ((some 1, some 1) : MergedRow) ++ [(none, some 1)]).countP bothPresent : ℚ)) /
        (((List.replicate 9 ((some 1, some 1) : MergedRow) ++ [(none, some 1)]).length : ℚ))) ∧
    (monthPasses (List.replicate 9 ((some 1, some 1) : MergedRow) ++ [(none, some 1)]) = true ↔
      (9 : ℚ) / 10 ≤
        presentFraction (List.replicate 9 ((some 1, some 1) : MergedRow) ++ [(none, some 1)])) ∧
    presentFraction (List.replicate 8 ((some 1, some 1) : MergedRow) ++ [(none, some 1), (none, some 1)]) ≤
      presentFraction (List.replicate 9 ((some 1, some 1) : MergedRow) ++ [(none, some 1)]) :=
  claim_C5 (List.replicate 9 ((some 1, some 1) : MergedRow) ++ [(none, some 1)])
    (List.replicate 8 ((some 1, some 1) : MergedRow) ++ [(none, some 1), (none, some 1)])
    (by decide) (by decide)

theorem fullYearBefore_iff (rep : List ReportEntry) (iy : Int) :
    fullYearBefore rep iy = true ↔
      ∃ y : Int, y < iy ∧ ∀ m : ℕ, 1 ≤ m → m ≤ 12 →
        ∃ e ∈ rep, e.1 = y ∧ e.2.1 = m ∧ e.2.2 = true := by
  unfold fullYearBefore
  simp only [List.any_eq_true, List.all_eq_true, Bool.and_eq_true, decide_eq_true_eq,
    List.mem_map, List.mem_range]
  constructor
  · rintro ⟨y, ⟨e0, he0, hy0⟩, hlt, hall⟩
    refine ⟨y, hlt, ?_⟩
    intro m hm1 hm12
    obtain ⟨e, he, ⟨⟨hey, hem⟩, hepass⟩⟩ := hall (m - 1) (by omega)
    exact ⟨e, he, hey, by omega, hepass⟩
  · rintro ⟨y, hy, h⟩
    obtain ⟨e1, he1, he1y, _, _⟩ := h 1 (by omega) (by omega)
    refine ⟨y, ⟨e1, he1, he1y⟩, hy, ?_⟩
    intro m hm
    obtain ⟨e, he, hey, hem, hepass⟩ := h (m + 1) (by omega) (by omega)
    exact ⟨e, he, ⟨⟨hey, hem⟩, hepass⟩⟩

/-- C6: the pipeline signals `InsufficientDataError` instead of producing
the merged baseline artifact iff the report has no full calendar year of
passing months preceding the intervention date, and produces the artifact
iff it has one. -/
theorem claim_C6 {α : Type} (rep : List ReportEntry) (iy : Int) (artifact : α) :
    (sufficiencyGate rep iy artifact = Except.error "InsufficientDataError" ↔
      ¬ ∃ y : Int, y < iy ∧ ∀ m : ℕ, 1 ≤ m → m ≤ 12 →
        ∃ e ∈ rep, e.1 = y ∧ e.2.1 = m ∧ e.2.2 = true) ∧
    (sufficiencyGate rep iy artifact = Except.ok artifact ↔
      ∃ y : Int, y < iy ∧ ∀ m : ℕ, 1 ≤ m → m ≤ 12 →
        ∃ e ∈ rep, e.1 = y ∧ e.2.1 = m ∧ e.2.2 = true) := by
  have hiff := fullYearBefore_iff rep iy
  cases hb : fullYearBefore rep iy with
  | false =>
      rw [hb] at hiff
      simp only [Bool.false_eq_true, false_iff] at hiff
      have hgate : sufficiencyGate rep iy artifact =
          Except.error "InsufficientDataError" := by
        simp [sufficiencyGate, hb]
      rw [hgate]
      constructor
      · exact iff_of_true rfl hiff
      · exact iff_of_false (by simp) hiff
  | true =>
      rw [hb] at hiff
      simp only [true_iff] at hiff
      have hgate : sufficiencyGate rep iy artifact = Except.ok artifact := by
        simp [sufficiencyGate, hb]
      rw [hgate]
      constructor
      · exact iff_of_false (by simp) (not_not_intro hiff)
      · exact iff_of_true rfl hiff

/-- C7: on a day holding at least the `min_samples` fraction of the expected
hourly count, the local detector flags a residual iff it is present and
falls outside `[median − c·MAD, median + c·MAD]` of that day's residuals;
on a day below the threshold it flags nothing. -/
theorem claim_C7 (c min_samples : ℚ) (days : List (List (Option ℚ)))
    (day : List (Option ℚ)) (d i : ℕ)
    (hd : d < days.length) (hday : days.getD d [] = day) :
    (local_outlier_detect c min_samples days).getD d [] = dayFlags c min_samples day ∧
    (min_samples * (day.length : ℚ) ≤ ((day.filterMap id).length : ℚ) →
      i < day.length →
      ((dayFlags c min_samples day).getD i false = true ↔
        ∃ v, day.getD i none = some v ∧
          (v < medianQ (day.filterMap id) - c * madQ (day.filterMap id) ∨
           medianQ (day.filterMap id) + c * madQ (day.filterMap id) < v))) ∧
    (((day.filterMap id).length : ℚ) < min_samples * (day.length : ℚ) →
      (dayFlags c min_samples day).getD i false = false) := by
  refine ⟨?_, ?_, ?_⟩
  · unfold local_outlier_detect
    rw [getD_map (dayFlags c min_samples) days d hd [] []]
    rw [hday]
  · intro hcov hi
    unfold dayFlags
    rw [if_pos hcov]
    rw [getD_map _ day i hi none false]
    rcases hv : day.getD i none with _ | v
    · simp
    · simp only [decide_eq_true_eq, Option.some.injEq]
      constructor
      · intro h
        exact ⟨v, rfl, h⟩
      · rintro ⟨v', rfl, h⟩
        exact h
  · intro hcov
    unfold dayFlags
    rw [if_neg (not_le.mpr hcov)]
    by_cases hi : i < day.length
    · rw [getD_map _ day i hi none false]
    · have hlen : (day.map (fun _ => false)).length ≤ i := by
        simpa using not_lt.mp hi
      rw [List.getD_eq_getElem?_getD, List.getElem?_eq_none hlen]
      rfl

theorem claim_C7_witness :
    ((local_outlier_detect 4 (1/2) [[some 0, some 0, some 5, none]]).getD 0 [] =
      dayFlags 4 (1/2) [some 0, some 0, some 5, none]) ∧
    ((1 : ℚ)/2 * (([some 0, some 0, some 5, none] : List (Option ℚ)).length : ℚ) ≤
        ((([some 0, some 0, some 5, none] : List (Option ℚ)).filterMap id).length : ℚ) →
      2 < ([some 0, some 0, some 5, none] : List (Option ℚ)).length →
      ((dayFlags 4 (1/2) [some 0, some 0, some 5, none]).getD 2 false = true ↔
        ∃ v, ([some 0, some 0, some 5, none] : List (Option ℚ)).getD 2 none = some v ∧
          (v < medianQ (([some 0, some 0, some 5, none] : List (Option ℚ)).filterMap id) -
              4 * madQ (([some 0, some 0, some 5, none] : List (Option ℚ)).filterMap id) ∨
           medianQ (([some 0, some 0, some 5, none] : List (Option ℚ)).filterMap id) +
              4 * madQ (([some 0, some 0, some 5, none] : List (Option ℚ)).filterMap id) < v))) ∧
    (((([some 0, some 0, some 5, none] : List (Option ℚ)).filterMap id).length : ℚ) <
        (1 : ℚ)/2 * (([some 0, some 0, some 5, none] : List (Option ℚ)).length : ℚ) →
      (dayFlags 4 (1/2) [some 0, some 0, some 5, none]).getD 2 false = false) :=
  claim_C7 4 (1/2) [[some 0, some 0, some 5, none]] [some 0, some 0, some 5, none] 0 2
    (by decide) rfl

theorem getD_some_lt_length {vals : List (Option ℚ)} {j : ℕ} {v : ℚ}
    (h : vals.getD j none = some v) : j < vals.length := by
  by_contra hj
  rw [List.getD_eq_getElem?_getD, List.getElem?_eq_none (by omega)] at h
  simp at h

theorem countEqDown_le (vals : List (Option ℚ)) (v : ℚ) (i : ℕ) :
    countEqDown vals v i ≤ i := by
  induction i with
  | zero => simp [countEqDown]
  | succ j ih =>
      unfold countEqDown
      by_cases h : vals.getD j none = some v
      · rw [if_pos h]; omega
      · rw [if_neg h]; omega

theorem countEqDown_run (vals : List (Option ℚ)) (v : ℚ) (i : ℕ) :
    ∀ j, i - countEqDown vals v i ≤ j → j < i → vals.getD j none = some v := by
  induction i with
  | zero =>
      intro j _ hj
      exact absurd hj (Nat.not_lt_zero j)
  | succ i ih =>
      intro j hge hlt
      unfold countEqDown at hge
      by_cases h : vals.getD i none = some v
      · rw [if_pos h] at hge
        rcases Nat.lt_succ_iff_lt_or_eq.mp hlt with hlt' | rfl
        · exact ih j (by omega) hlt'
        · exact h
      · rw [if_neg h] at hge
        exfalso
        omega

theorem countEqDown_lower (vals : List (Option ℚ)) (v : ℚ) (a : ℕ) :
    ∀ i, a ≤ i → (∀ j, a ≤ j → j < i → vals.getD j none = some v) →
      i - a ≤ countEqDown vals v i := by
  intro i
  induction i with
  | zero =>
      intro _ _
      omega
  | succ i ih =>
      intro ha hall
      by_cases hai : a ≤ i
      · have hv : vals.getD i none = some v := hall i hai (by omega)
        unfold countEqDown
        rw [if_pos hv]
        have := ih hai (fun j hj hj' => hall j hj (by omega))
        omega
      · omega

theorem countEqUpFuel_run (vals : List (Option ℚ)) (v : ℚ) :
    ∀ fuel i j, i ≤ j → j < i + countEqUpFuel vals v fuel i →
      vals.getD j none = some v := by
  intro fuel
  induction fuel with
  | zero =>
      intro i j h1 h2
      simp [countEqUpFuel] at h2
      exfalso
      omega
  | succ f ih =>
      intro i j h1 h2
      unfold countEqUpFuel at h2
      by_cases h : vals.getD i none = some v
      · rw [if_pos h] at h2
        rcases Nat.eq_or_lt_of_le h1 with rfl | hlt
        · exact h
        · exact ih (i + 1) j hlt (by omega)
      · rw [if_neg h] at h2
        exfalso
        omega

theorem countEqUpFuel_lower (vals : List (Option ℚ)) (v : ℚ) :
    ∀ fuel i k, (∀ j, i ≤ j → j < i + k → vals.getD j none = some v) →
      k ≤ fuel → k ≤ countEqUpFuel vals v fuel i := by
  intro fuel
  induction fuel with
  | zero =>
      intro i k _ hk
      omega
  | succ f ih =>
      intro i k hall hk
      rcases Nat.eq_zero_or_pos k with rfl | hkpos
      · omega
      · have hv : vals.getD i none = some v := hall i (le_refl i) (by omega)
        unfold countEqUpFuel
        rw [if_pos hv]
        have := ih (i + 1) (k - 1) (fun j hj hj' => hall j (by omega) (by omega)) (by omega)
        omega

theorem flatRun_iff (w : ℕ) (hw : 0 < w) (vals : List (Option ℚ)) (i : ℕ) :
    flatRun w vals i = true ↔
      ∃ (a b : ℕ) (v : ℚ), a ≤ i ∧ i ≤ b ∧ a + w ≤ b + 1 ∧
        ∀ j, a ≤ j → j ≤ b → vals.getD j none = some v := by
  unfold flatRun
  rw [decide_eq_true_eq]
  constructor
  · intro h
    rcases hv : vals.getD i none with _ | v
    · have hr : runLen vals i = 0 := by
        unfold runLen
        rw [hv]
      rw [hr] at h
      omega
    · have hr : runLen vals i =
          countEqDown vals v i + 1 + countEqUpFuel vals v vals.length (i + 1) := by
        unfold runLen
        rw [hv]
        rfl
      rw [hr] at h
      refine ⟨i - countEqDown vals v i,
        i + countEqUpFuel vals v vals.length (i + 1), v, by omega, by omega, ?_, ?_⟩
      · have := countEqDown_le vals v i
        omega
      · intro j hj1 hj2
        rcases Nat.lt_trichotomy j i with hlt | rfl | hgt
        · exact countEqDown_run vals v i j hj1 hlt
        · exact hv
        · exact countEqUpFuel_run vals v vals.length (i + 1) j (by omega) (by omega)
  · rintro ⟨a, b, v, ha, hb, hw', hall⟩
    have hvi : vals.getD i none = some v := hall i ha hb
    have hr : runLen vals i =
        countEqDown vals v i + 1 + countEqUpFuel vals v vals.length (i + 1) := by
      unfold runLen
      rw [hvi]
      rfl
    rw [hr]
    have hdown : i - a ≤ countEqDown vals v i :=
      countEqDown_lower vals v a i ha (fun j hj hj' => hall j hj (by omega))
    have hblen : b < vals.length := getD_some_lt_length (hall b (by omega) (le_refl b))
    have hup : b - i ≤ countEqUpFuel vals v vals.length (i + 1) :=
      countEqUpFuel_lower vals v vals.length (i + 1) (b - i)
        (fun j hj hj' => hall j (by omega) (by omega)) (by omega)
    omega

theorem maskBy_getD (p : ℕ → ℚ → Bool) (vals : List (Option ℚ)) (i : ℕ)
    (hi : i < vals.length) :
    (maskBy p vals).getD i none =
      (match vals.getD i none with
       | none => none
       | some v => if p i v then none else some v) := by
  unfold maskBy
  exact getD_range_map _ vals.length i hi none

theorem maskBy_length (p : ℕ → ℚ → Bool) (vals : List (Option ℚ)) :
    (maskBy p vals).length = vals.length := by
  simp [maskBy]

theorem maskBy_idem (p : ℕ → ℚ → Bool) (vals : List (Option ℚ)) :
    maskBy p (maskBy p vals) = maskBy p vals := by
  have h : (List.range vals.length).map
      (fun i => match (maskBy p vals).getD i none with
        | none => none
        | some v => if p i v then none else some v) =
      (List.range vals.length).map
      (fun i => match vals.getD i none with
        | none => none
        | some v => if p i v then none else some v) := by
    refine List.map_congr_left ?_
    intro i hi
    rw [List.mem_range] at hi
    rw [maskBy_getD p vals i hi]
    rcases hv : vals.getD i none with _ | v
    · rfl
    · by_cases hp : p i v = true
      · simp [hp]
      · simp [hp]
  calc maskBy p (maskBy p vals)
      = (List.range (maskBy p vals).length).map
          (fun i => match (maskBy p vals).getD i none with
            | none => none
            | some v => if p i v then none else some v) := rfl
    _ = (List.range vals.length).map
          (fun i => match (maskBy p vals).getD i none with
            | none => none
            | some v => if p i v then none else some v) := by rw [maskBy_length]
    _ = (List.range vals.length).map
          (fun i => match vals.getD i none with
            | none => none
            | some v => if p i v then none else some v) := h
    _ = maskBy p vals := rfl

/-- C8: the global filter marks missing exactly the values caught by the
zero/negative rule (when the corresponding flags disallow them), the values
exceeding 10× the overall median of non-missing values, and the values
inside a run of at least `no_change_window` identical non-missing values;
all other values pass unchanged, and re-masking the filtered series with
the same rules has no further effect. -/
theorem claim_C8 (w : ℕ) (az an : Bool) (vals : List (Option ℚ)) (i : ℕ)
    (hw : 0 < w) (hi : i < vals.length) :
    (global_filter w az an vals).length = vals.length ∧
    ((global_filter w az an vals).getD i none = none ↔
      vals.getD i none = none ∨
      ∃ v, vals.getD i none = some v ∧
        ((az = false ∧ v = 0) ∨ (an = false ∧ v < 0) ∨
         10 * medianQ (vals.filterMap id) < v ∨
         ∃ a b, a ≤ i ∧ i ≤ b ∧ a + w ≤ b + 1 ∧
           ∀ j, a ≤ j → j ≤ b → vals.getD j none = some v)) ∧
    ((global_filter w az an vals).getD i none ≠ none →
      (global_filter w az an vals).getD i none = vals.getD i none) ∧
    maskBy (globalFilterHit w az an vals) (global_filter w az an vals) =
      global_filter w az an vals := by
  have hrule : ∀ v : ℚ, vals.getD i none = some v →
      (globalFilterHit w az an vals i v = true ↔
      ((az = false ∧ v = 0) ∨ (an = false ∧ v < 0) ∨
       10 * medianQ (vals.filterMap id) < v ∨
       ∃ a b, a ≤ i ∧ i ≤ b ∧ a + w ≤ b + 1 ∧
         ∀ j, a ≤ j → j ≤ b → vals.getD j none = some v)) := by
    intro v hvi
    unfold globalFilterHit zeroNegRule magnitudeRule
    rw [Bool.or_eq_true, Bool.or_eq_true, Bool.or_eq_true, Bool.and_eq_true,
      Bool.and_eq_true]
    constructor
    · rintro (((⟨hz, hveq⟩ | ⟨hn, hvlt⟩) | hmag) | hflat)
      · exact Or.inl ⟨by simpa using hz, by simpa using hveq⟩
      · exact Or.inr (Or.inl ⟨by simpa using hn, by simpa using hvlt⟩)
      · exact Or.inr (Or.inr (Or.inl (by simpa using hmag)))
      · obtain ⟨a, b, v', ha, hb, hw', hall⟩ := (flatRun_iff w hw vals i).mp hflat
        have hvv : v' = v := by
          have h := hall i ha hb
          rw [hvi] at h
          exact (Option.some.injEq _ _ ▸ h).symm
        exact Or.inr (Or.inr (Or.inr ⟨a, b, ha, hb, hw', hvv ▸ hall⟩))
    · rintro (⟨hz, hveq⟩ | ⟨hn, hvlt⟩ | hmag | ⟨a, b, ha, hb, hw', hall⟩)
      · exact Or.inl (Or.inl (Or.inl ⟨by simp [hz], by simpa using hveq⟩))
      · exact Or.inl (Or.inl (Or.inr ⟨by simp [hn], by simpa using hvlt⟩))
      · exact Or.inl (Or.inr (by simpa using hmag))
      · exact Or.inr ((flatRun_iff w hw vals i).mpr ⟨a, b, v, ha, hb, hw', hall⟩)
  refine ⟨maskBy_length _ vals, ?_, ?_, maskBy_idem _ _⟩
  · unfold global_filter
    rw [maskBy_getD _ vals i hi]
    rcases hv : vals.getD i none with _ | v
    · simp
    · simp only [Option.some.injEq]
      by_cases hp : globalFilterHit w az an vals i v = true
      · rw [if_pos hp]
        constructor
        · intro _
          exact Or.inr ⟨v, rfl, (hrule v hv).mp hp⟩
        · intro _
          rfl
      · rw [if_neg hp]
        constructor
        · intro h
          simp at h
        · rintro (h | ⟨v', hv', hcond⟩)
          · simp at h
          · obtain rfl : v = v' := by simpa using hv'
            exact absurd ((hrule v hv).mpr hcond) hp
  · intro hne
    unfold global_filter at hne ⊢
    rw [maskBy_getD _ vals i hi] at hne ⊢
    revert hne
    rcases hv : vals.getD i none with _ | v
    · intro _
      rfl
    · intro hne
      by_cases hp : globalFilterHit w az an vals i v = true
      · exact absurd (by simp [hp]) hne
      · simp [hp]

theorem claim_C8_witness :
    ((global_filter 3 false false
        [some 1, some 1, some 1, some 5, some 0, some (-2), some 200]).length =
      ([some 1, some 1, some 1, some 5, some 0, some (-2), some 200] : List (Option ℚ)).length) ∧
    ((global_filter 3 false false
        [some 1, some 1, some 1, some 5, some 0, some (-2), some 200]).getD 0 none = none ↔
      ([some 1, some 1, some 1, some 5, some 0, some (-2), some 200] : List (Option ℚ)).getD 0 none = none ∨
      ∃ v, ([some 1, some 1, some 1, some 5, some 0, some (-2), some 200] : List (Option ℚ)).getD 0 none = some v ∧
        ((false = false ∧ v = 0) ∨ (false = false ∧ v < 0) ∨
         10 * medianQ (([some 1, some 1, some 1, some 5, some 0, some (-2), some 200] : List (Option ℚ)).filterMap id) < v ∨
         ∃ a b, a ≤ 0 ∧ 0 ≤ b ∧ a + 3 ≤ b + 1 ∧
           ∀ j, a ≤ j → j ≤ b →
             ([some 1, some 1, some 1, some 5, some 0, some (-2), some 200] : List (Option ℚ)).getD j none = some v)) ∧
    ((global_filter 3 false false
        [some 1, some 1, some 1, some 5, some 0, some (-2), some 200]).getD 0 none ≠ none →
      (global_filter 3 false false
        [some 1, some 1, some 1, some 5, some 0, some (-2), some 200]).getD 0 none =
        ([some 1, some 1, some 1, some 5, some 0, some (-2), some 200] : List (Option ℚ)).getD 0 none) ∧
    maskBy (globalFilterHit 3 false false
        [some 1, some 1, some 1, some 5, some 0, some (-2), some 200])
      (global_filter 3 false false
        [some 1, some 1, some 1, some 5, some 0, some (-2), some 200]) =
      global_filter 3 false false
        [some 1, some 1, some 1, some 5, some 0, some (-2), some 200] :=
  claim_C8 3 false false [some 1, some 1, some 1, some 5, some 0, some (-2), some 200] 0
    (by decide) (by decide)

theorem seekBack_some (vals : List (Option ℚ)) :
    ∀ b j p v, seekBack vals j b = some (p, v) →
      vals.getD p none = some v ∧ p ≤ j ∧ j - p < b ∧
        ∀ q, p < q → q ≤ j → vals.getD q none = none := by
  intro b
  induction b with
  | zero =>
      intro j p v h
      simp [seekBack] at h
  | succ b ih =>
      intro j p v h
      cases j with
      | zero =>
          unfold seekBack at h
          revert h
          rcases h0 : vals.getD 0 none with _ | v'
          · intro h
            simp at h
          · intro h
            simp only [Option.map_some', Option.some.injEq, Prod.mk.injEq] at h
            obtain ⟨rfl, rfl⟩ := h
            refine ⟨h0, le_refl _, by omega, ?_⟩
            intro q hq hq'
            exfalso
            omega
      | succ j' =>
          unfold seekBack at h
          revert h
          rcases hj : vals.getD (j' + 1) none with _ | v'
          · intro h
            obtain ⟨h1, h2, h3, h4⟩ := ih j' p v h
            refine ⟨h1, by omega, by omega, ?_⟩
            intro q hq hq'
            rcases Nat.eq_or_lt_of_le hq' with rfl | hlt
            · exact hj
            · exact h4 q hq (by omega)
          · intro h
            simp only [Option.some.injEq, Prod.mk.injEq] at h
            obtain ⟨rfl, rfl⟩ := h
            refine ⟨hj, le_refl _, by omega, ?_⟩
            intro q hq hq'
            exfalso
            omega

theorem seekBack_none (vals : List (Option ℚ)) :
    ∀ b j, seekBack vals j b = none →
      ∀ q, q ≤ j → j - q < b → vals.getD q none = none := by
  intro b
  induction b with
  | zero =>
      intro j _ q _ hq'
      exfalso
      omega
  | succ b ih =>
      intro j h q hq hq'
      cases j with
      | zero =>
          unfold seekBack at h
          have hq0 : q = 0 := by omega
          subst hq0
          revert h
          rcases h0 : vals.getD 0 none with _ | v'
          · intro _
            rfl
          · intro h
            simp at h
      | succ j' =>
          unfold seekBack at h
          revert h
          rcases hj : vals.getD (j' + 1) none with _ | v'
          · intro h
            rcases Nat.eq_or_lt_of_le hq with heq | hlt
            · rw [heq]
              exact hj
            · exact ih j' h q (by omega) (by omega)
          · intro h
            simp at h

theorem seekFwd_some (vals : List (Option ℚ)) :
    ∀ b j p v, seekFwd vals j b = some (p, v) →
      vals.getD p none = some v ∧ j ≤ p ∧ p - j < b ∧
        ∀ q, j ≤ q → q < p → vals.getD q none = none := by
  intro b
  induction b with
  | zero =>
      intro j p v h
      simp [seekFwd] at h
  | succ b ih =>
      intro j p v h
      unfold seekFwd at h
      by_cases hlen : j < vals.length
      · rw [if_pos hlen] at h
        revert h
        rcases hj : vals.getD j none with _ | v'
        · intro h
          obtain ⟨h1, h2, h3, h4⟩ := ih (j + 1) p v h
          refine ⟨h1, by omega, by omega, ?_⟩
          intro q hq hq'
          rcases Nat.eq_or_lt_of_le hq with rfl | hlt
          · exact hj
          · exact h4 q (by omega) hq'
        · intro h
          simp only [Option.some.injEq, Prod.mk.injEq] at h
          obtain ⟨rfl, rfl⟩ := h
          refine ⟨hj, le_refl _, by omega, ?_⟩
          intro q hq hq'
          exfalso
          omega
      · rw [if_neg hlen] at h
        simp at h

theorem seekFwd_none (vals : List (Option ℚ)) :
    ∀ b j, seekFwd vals j b = none →
      ∀ q, j ≤ q → q - j < b → q < vals.length → vals.getD q none = none := by
  intro b
  induction b with
  | zero =>
      intro j _ q _ hq' _
      exfalso
      omega
  | succ b ih =>
      intro j h q hq hq' hqlen
      unfold seekFwd at h
      by_cases hlen : j < vals.length
      · rw [if_pos hlen] at h
        revert h
        rcases hj : vals.getD j none with _ | v'
        · intro h
          rcases Nat.eq_or_lt_of_le hq with rfl | hlt
          · exact hj
          · exact ih (j + 1) h q (by omega) (by omega) hqlen
        · intro h
          simp at h
      · exfalso
        omega

theorem linear_impute_length (w : ℕ) (vals : List (Option ℚ)) :
    (linear_impute w vals).length = vals.length := by
  simp [linear_impute]

theorem linear_impute_getD (w : ℕ) (vals : List (Option ℚ)) (i : ℕ)
    (hi : i < vals.length) :
    (linear_impute w vals).getD i none =
      (match vals.getD i none with
       | some v => some v
       | none =>
           match nearestBefore vals i w, nearestAfter vals i w with
           | some (j, vb), some (k, va) => some (interpAt j k i vb va)
           | _, _ => none) := by
  unfold linear_impute
  exact getD_range_map _ vals.length i hi none

/-- C9: `linear_impute` fills a missing value that has a non-missing
neighbour within `w` hours on both sides with the linear interpolation of
the nearest such neighbours, leaves a missing value missing when either
side lacks a neighbour within `w` hours, and never alters present
values. -/
theorem claim_C9 (w : ℕ) (vals : List (Option ℚ)) (i : ℕ) (hi : i < vals.length) :
    (linear_impute w vals).length = vals.length ∧
    (∀ v, vals.getD i none = some v → (linear_impute w vals).getD i none = some v) ∧
    (vals.getD i none = none →
      ((∃ j, j < i ∧ i ≤ j + w ∧ vals.getD j none ≠ none) ∧
       (∃ k, i < k ∧ k ≤ i + w ∧ vals.getD k none ≠ none) →
        ∃ j vb k va, vals.getD j none = some vb ∧ vals.getD k none = some va ∧
          j < i ∧ i < k ∧ i ≤ j + w ∧ k ≤ i + w ∧
          (∀ q, j < q → q < i → vals.getD q none = none) ∧
          (∀ q, i < q → q < k → vals.getD q none = none) ∧
          (linear_impute w vals).getD i none = some (interpAt j k i vb va)) ∧
      (¬((∃ j, j < i ∧ i ≤ j + w ∧ vals.getD j none ≠ none) ∧
         (∃ k, i < k ∧ k ≤ i + w ∧ vals.getD k none ≠ none)) →
        (linear_impute w vals).getD i none = none)) := by
  refine ⟨linear_impute_length w vals, ?_, ?_⟩
  · intro v hv
    rw [linear_impute_getD w vals i hi, hv]
  · intro hmiss
    constructor
    · rintro ⟨⟨j0, hj0lt, hj0w, hj0ne⟩, ⟨k0, hk0gt, hk0w, hk0ne⟩⟩
      have hw1 : 0 < w := by omega
      obtain ⟨i', rfl⟩ : ∃ i', i = i' + 1 := ⟨i - 1, by omega⟩
      have hbefore : ∃ jp, nearestBefore vals (i' + 1) w = some jp := by
        rcases hb : nearestBefore vals (i' + 1) w with _ | jp
        · exfalso
          unfold nearestBefore at hb
          exact hj0ne (seekBack_none vals w i' hb j0 (by omega) (by omega))
        · exact ⟨jp, rfl⟩
      obtain ⟨⟨j, vb⟩, hb⟩ := hbefore
      have hafter : ∃ kp, nearestAfter vals (i' + 1) w = some kp := by
        rcases ha : nearestAfter vals (i' + 1) w with _ | kp
        · exfalso
          unfold nearestAfter at ha
          have hk0len : k0 < vals.length := by
            rcases hval : vals.getD k0 none with _ | vv
            · exact absurd hval hk0ne
            · exact getD_some_lt_length hval
          exact hk0ne (seekFwd_none vals w (i' + 1 + 1) ha k0 (by omega) (by omega) hk0len)
        · exact ⟨kp, rfl⟩
      obtain ⟨⟨k, va⟩, ha⟩ := hafter
      obtain ⟨hbv, hble, hbdist, hbgap⟩ := seekBack_some vals w i' j vb hb
      obtain ⟨hav, hage, hadist, hagap⟩ := seekFwd_some vals w (i' + 1 + 1) k va ha
      refine ⟨j, vb, k, va, hbv, hav, by omega, by omega, by omega, by omega, ?_, ?_, ?_⟩
      · intro q hq hq'
        exact hbgap q hq (by omega)
      · intro q hq hq'
        exact hagap q (by omega) hq'
      · rw [linear_impute_getD w vals (i' + 1) hi, hmiss, hb, ha]
    · intro hnot
      rw [linear_impute_getD w vals i hi, hmiss]
      rcases hb : nearestBefore vals i w with _ | jp
      · rcases ha : nearestAfter vals i w with _ | kp
        · rfl
        · rfl
      · rcases ha : nearestAfter vals i w with _ | kp
        · rcases jp with ⟨j, vb⟩
          rfl
        · exfalso
          apply hnot
          rcases jp with ⟨j, vb⟩
          rcases kp with ⟨k, va⟩
          have hbs : seekBack vals (i - 1) w = some (j, vb) := by
            rcases i with _ | i'
            · simp [nearestBefore] at hb
            · simpa [nearestBefore] using hb
          have hipos : 0 < i := by
            rcases i with _ | i'
            · simp [nearestBefore] at hb
            · omega
          obtain ⟨hbv, hble, hbdist, _⟩ := seekBack_some vals w (i - 1) j vb hbs
          obtain ⟨hav, hage, hadist, _⟩ :=
            seekFwd_some vals w (i + 1) k va (by simpa [nearestAfter] using ha)
          constructor
          · exact ⟨j, by omega, by omega, by rw [hbv]; simp⟩
          · exact ⟨k, by omega, by omega, by rw [hav]; simp⟩

theorem claim_C9_witness :
    ((linear_impute 6 [some 1, none, none, some 4, none]).length =
      ([some 1, none, none, some 4, none] : List (Option ℚ)).length) ∧
    (∀ v, ([some 1, none, none, some 4, none] : List (Option ℚ)).getD 1 none = some v →
      (linear_impute 6 [some 1, none, none, some 4, none]).getD 1 none = some v) ∧
    (([some 1, none, none, some 4, none] : List (Option ℚ)).getD 1 none = none →
      ((∃ j, j < 1 ∧ 1 ≤ j + 6 ∧
          ([some 1, none, none, some 4, none] : List (Option ℚ)).getD j none ≠ none) ∧
       (∃ k, 1 < k ∧ k ≤ 1 + 6 ∧
          ([some 1, none, none, some 4, none] : List (Option ℚ)).getD k none ≠ none) →
        ∃ j vb k va,
          ([some 1, none, none, some 4, none] : List (Option ℚ)).getD j none = some vb ∧
          ([some 1, none, none, some 4, none] : List (Option ℚ)).getD k none = some va ∧
          j < 1 ∧ 1 < k ∧ 1 ≤ j + 6 ∧ k ≤ 1 + 6 ∧
          (∀ q, j < q → q < 1 →
            ([some 1, none, none, some 4, none] : List (Option ℚ)).getD q none = none) ∧
          (∀ q, 1 < q → q < k →
            ([some 1, none, none, some 4, none] : List (Option ℚ)).getD q none = none) ∧
          (linear_impute 6 [some 1, none, none, some 4, none]).getD 1 none =
            some (interpAt j k 1 vb va)) ∧
      (¬((∃ j, j < 1 ∧ 1 ≤ j + 6 ∧
           ([some 1, none, none, some 4, none] : List (Option ℚ)).getD j none ≠ none) ∧
         (∃ k, 1 < k ∧ k ≤ 1 + 6 ∧
           ([some 1, none, none, some 4, none] : List (Option ℚ)).getD k none ≠ none)) →
        (linear_impute 6 [some 1, none, none, some 4, none]).getD 1 none = none)) :=
  claim_C9 6 [some 1, none, none, some 4, none] 1 (by decide)

theorem nearestObs_none (t : Int) (temp : List (Int × Option ℚ)) :
    nearestObs t temp = none → ∀ p ∈ temp, ¬(|p.1 - t| ≤ 1) := by
  induction temp with
  | nil =>
      intro _ p hp
      simp at hp
  | cons a rest ih =>
      intro h p hp
      rcases a with ⟨s1, v1⟩
      rcases hr : nearestObs t rest with _ | q
      · by_cases hs : |s1 - t| ≤ 1
        · have hcons : nearestObs t ((s1, v1) :: rest) = some (s1, v1) := by
            simp [nearestObs, hr, hs]
          rw [hcons] at h
          exact absurd h (by simp)
        · rcases List.mem_cons.mp hp with heq | hp'
          · rw [heq]
            exact hs
          · exact ih hr p hp'
      · exfalso
        rcases q with ⟨s0, v0⟩
        by_cases hs : |s1 - t| ≤ 1
        · by_cases hcmp : |s1 - t| ≤ |s0 - t|
          · have hcons : nearestObs t ((s1, v1) :: rest) = some (s1, v1) := by
              simp [nearestObs, hr, hs, hcmp]
            rw [hcons] at h
            exact absurd h (by simp)
          · have hcons : nearestObs t ((s1, v1) :: rest) = some (s0, v0) := by
              simp [nearestObs, hr, hs, hcmp]
            rw [hcons] at h
            exact absurd h (by simp)
        · have hcons : nearestObs t ((s1, v1) :: rest) = some (s0, v0) := by
            simp [nearestObs, hr, hs]
          rw [hcons] at h
          exact absurd h (by simp)

theorem nearestObs_eq_none (t : Int) (temp : List (Int × Option ℚ))
    (h : ∀ p ∈ temp, ¬(|p.1 - t| ≤ 1)) : nearestObs t temp = none := by
  induction temp with
  | nil => rfl
  | cons a rest ih =>
      rcases a with ⟨s1, v1⟩
      have hs : ¬(|s1 - t| ≤ 1) := by
        have := h (s1, v1) (by simp)
        simpa using this
      have hr : nearestObs t rest = none :=
        ih (fun p hp => h p (List.mem_cons_of_mem _ hp))
      simp [nearestObs, hr, hs]

theorem nearestObs_some (t : Int) (temp : List (Int × Option ℚ)) :
    ∀ s v, nearestObs t temp = some (s, v) →
      (s, v) ∈ temp ∧ |s - t| ≤ 1 ∧
        ∀ p ∈ temp, |p.1 - t| ≤ 1 → |s - t| ≤ |p.1 - t| := by
  induction temp with
  | nil =>
      intro s v h
      simp [nearestObs] at h
  | cons a rest ih =>
      intro s v h
      rcases a with ⟨s1, v1⟩
      rcases hr : nearestObs t rest with _ | q
      · by_cases hs : |s1 - t| ≤ 1
        · have hcons : nearestObs t ((s1, v1) :: rest) = some (s1, v1) := by
            simp [nearestObs, hr, hs]
          rw [hcons] at h
          simp only [Option.some.injEq, Prod.mk.injEq] at h
          obtain ⟨rfl, rfl⟩ := h
          refine ⟨by simp, hs, ?_⟩
          intro p hp hp1
          rcases List.mem_cons.mp hp with heq | hp'
          · rw [heq]
          · exact absurd hp1 (nearestObs_none t rest hr p hp')
        · have hcons : nearestObs t ((s1, v1) :: rest) = none := by
            simp [nearestObs, hr, hs]
          rw [hcons] at h
          exact absurd h (by simp)
      · rcases q with ⟨s0, v0⟩
        have ih0 := ih s0 v0 hr
        by_cases hs : |s1 - t| ≤ 1
        · by_cases hcmp : |s1 - t| ≤ |s0 - t|
          · have hcons : nearestObs t ((s1, v1) :: rest) = some (s1, v1) := by
              simp [nearestObs, hr, hs, hcmp]
            rw [hcons] at h
            simp only [Option.some.injEq, Prod.mk.injEq] at h
            obtain ⟨rfl, rfl⟩ := h
            refine ⟨by simp, hs, ?_⟩
            intro p hp hp1
            rcases List.mem_cons.mp hp with heq | hp'
            · rw [heq]
            · exact le_trans hcmp (ih0.2.2 p hp' hp1)
          · have hcons : nearestObs t ((s1, v1) :: rest) = some (s0, v0) := by
              simp [nearestObs, hr, hs, hcmp]
            rw [hcons] at h
            simp only [Option.some.injEq, Prod.mk.injEq] at h
            obtain ⟨rfl, rfl⟩ := h
            refine ⟨List.mem_cons_of_mem _ ih0.1, ih0.2.1, ?_⟩
            intro p hp hp1
            rcases List.mem_cons.mp hp with heq | hp'
            · rw [heq]
              exact le_of_lt (lt_of_not_le hcmp)
            · exact ih0.2.2 p hp' hp1
        · have hcons : nearestObs t ((s1, v1) :: rest) = some (s0, v0) := by
            simp [nearestObs, hr, hs]
          rw [hcons] at h
          simp only [Option.some.injEq, Prod.mk.injEq] at h
          obtain ⟨rfl, rfl⟩ := h
          refine ⟨List.mem_cons_of_mem _ ih0.1, ih0.2.1, ?_⟩
          intro p hp hp1
          rcases List.mem_cons.mp hp with heq | hp'
          · exfalso
            rw [heq] at hp1
            exact hs hp1
          · exact ih0.2.2 p hp' hp1

/-- C10: the merged artifact is indexed by the consumption index and copies
each consumption value; a row's temperature value is the value of the
temperature observation nearest in time within one hour of the row's
timestamp, and is missing when no temperature observation lies within one
hour. -/
theorem claim_C10 (cons temp : List (Int × Option ℚ)) (i : ℕ) (hi : i < cons.length) :
    (mergeAsofNearest cons temp).map (fun r => r.1) = cons.map Prod.fst ∧
    ((mergeAsofNearest cons temp).getD i (0, none, none)).1 = (cons.getD i (0, none)).1 ∧
    ((mergeAsofNearest cons temp).getD i (0, none, none)).2.1 = (cons.getD i (0, none)).2 ∧
    ((∀ p ∈ temp, ¬(|p.1 - (cons.getD i (0, none)).1| ≤ 1)) →
      ((mergeAsofNearest cons temp).getD i (0, none, none)).2.2 = none) ∧
    (∀ s v, nearestObs (cons.getD i (0, none)).1 temp = some (s, v) →
      (s, v) ∈ temp ∧ |s - (cons.getD i (0, none)).1| ≤ 1 ∧
        (∀ p ∈ temp, |p.1 - (cons.getD i (0, none)).1| ≤ 1 →
          |s - (cons.getD i (0, none)).1| ≤ |p.1 - (cons.getD i (0, none)).1|) ∧
        ((mergeAsofNearest cons temp).getD i (0, none, none)).2.2 = v) := by
  have hrow : (mergeAsofNearest cons temp).getD i (0, none, none) =
      ((cons.getD i (0, none)).1, (cons.getD i (0, none)).2,
        (nearestObs (cons.getD i (0, none)).1 temp).bind (fun q => q.2)) := by
    unfold mergeAsofNearest
    exact getD_map _ cons i hi (0, none) (0, none, none)
  refine ⟨?_, ?_, ?_, ?_, ?_⟩
  · unfold mergeAsofNearest
    rw [List.map_map]
    rfl
  · rw [hrow]
  · rw [hrow]
  · intro hfar
    rw [hrow]
    simp only
    rw [nearestObs_eq_none _ temp hfar]
    rfl
  · intro s v hnear
    obtain ⟨hmem, htol, hmin⟩ := nearestObs_some _ temp s v hnear
    refine ⟨hmem, htol, hmin, ?_⟩
    rw [hrow]
    simp only
    rw [hnear]
    rfl

theorem claim_C10_witness :
    ((mergeAsofNearest [((0 : Int), some (5 : ℚ)), (10, some 6)]
        [((1 : Int), some (20 : ℚ)), (3, some 21)]).map (fun r => r.1) =
      ([((0 : Int), some (5 : ℚ)), (10, some 6)]).map Prod.fst) ∧
    (((mergeAsofNearest [((0 : Int), some (5 : ℚ)), (10, some 6)]
        [((1 : Int), some (20 : ℚ)), (3, some 21)]).getD 0 (0, none, none)).1 =
      (([((0 : Int), some (5 : ℚ)), (10, some 6)]).getD 0 (0, none)).1) ∧
    (((mergeAsofNearest [((0 : Int), some (5 : ℚ)), (10, some 6)]
        [((1 : Int), some (20 : ℚ)), (3, some 21)]).getD 0 (0, none, none)).2.1 =
      (([((0 : Int), some (5 : ℚ)), (10, some 6)]).getD 0 (0, none)).2) ∧
    ((∀ p ∈ [((1 : Int), some (20 : ℚ)), (3, some 21)],
        ¬(|p.1 - (([((0 : Int), some (5 : ℚ)), (10, some 6)]).getD 0 (0, none)).1| ≤ 1)) →
      ((mergeAsofNearest [((0 : Int), some (5 : ℚ)), (10, some 6)]
          [((1 : Int), some (20 : ℚ)), (3, some 21)]).getD 0 (0, none, none)).2.2 = none) ∧
    (∀ s v, nearestObs (([((0 : Int), some (5 : ℚ)), (10, some 6)]).getD 0 (0, none)).1
        [((1 : Int), some (20 : ℚ)), (3, some 21)] = some (s, v) →
      (s, v) ∈ [((1 : Int), some (20 : ℚ)), (3, some 21)] ∧
        |s - (([((0 : Int), some (5 : ℚ)), (10, some 6)]).getD 0 (0, none)).1| ≤ 1 ∧
        (∀ p ∈ [((1 : Int), some (20 : ℚ)), (3, some 21)],
          |p.1 - (([((0 : Int), some (5 : ℚ)), (10, some 6)]).getD 0 (0, none)).1| ≤ 1 →
          |s - (([((0 : Int), some (5 : ℚ)), (10, some 6)]).getD 0 (0, none)).1| ≤
            |p.1 - (([((0 : Int), some (5 : ℚ)), (10, some 6)]).getD 0 (0, none)).1|) ∧
        ((mergeAsofNearest [((0 : Int), some (5 : ℚ)), (10, some 6)]
            [((1 : Int), some (20 : ℚ)), (3, some 21)]).getD 0 (0, none, none)).2.2 = v) :=
  claim_C10 [((0 : Int), some (5 : ℚ)), (10, some 6)]
    [((1 : Int), some (20 : ℚ)), (3, some 21)] 0 (by decide)

end Hbgam
